import Mathlib

/-!
Shallow embedding of the sagalicious orchestration core (`src/core/saga.ts`,
`src/core/errors.ts`, `src/core/transaction.interface.ts`,
`src/core/processor.interface.ts`) and proofs about its claims.

Modelling decisions, each traceable to the source:
* Commands are plain JS objects (`command.interface.ts`): an optional string
  discriminator `type`, an opaque payload (`value`), and the runtime
  constructor name used by `NoProcessorFoundError` (`"Object"` for object
  literals).
* User-supplied capability code (`CommandProcessor.process` / `rollBack`) is a
  parameter of the model: its outcome is a function of the command and the
  transaction it receives, `none` meaning the promise resolved and `some e`
  meaning it rejected with error `e`.
* Time is an explicit `Nat` clock value passed to each operation in place of
  `new Date()`, and `randomUUID()` is an explicit `genId` argument (real UUIDs
  are never the empty string, which matters for the `!transaction.id` guard).
* The storage port is external; the core's own `InMemoryTransactionRepository`
  never rejects on the core's call pattern, so storage operations are modelled
  as succeeding, while every call the core makes to the port is recorded in
  the event trace.
* Every operation returns, besides its value, the trace of observable events
  (capability invocations and storage-port calls) in the order they occur;
  thrown errors are modelled with `Option`/`Except`.
-/

namespace Sagalicious

/-- Command (`command.interface.ts`): optional string discriminator `type`,
an opaque payload modelled by `value`, and `ctorName`, the runtime value of
`command.constructor.name` (`"Object"` for a plain object literal, `none` when
the object has no constructor). -/
structure Command where
  type : Option String := none
  value : String := ""
  ctorName : Option String := some "Object"
  deriving DecidableEq, Repr

/-- Errors raised through the saga (`errors.ts` plus the plain `Error`s thrown
in `saga.ts`); `custom` stands for an arbitrary error thrown by user-supplied
handler code. -/
inductive JsError where
  | noProcessorFound (message : String)
  | error (message : String)
  | custom (tag : Nat)
  deriving DecidableEq, Repr

/-- Display expression from `NoProcessorFoundError`:
`command.constructor?.name || typeof command`. For a command object the
`typeof` fallback is the string `"object"`; it is used when the constructor is
missing or its name is falsy (empty). -/
def jsCtorDisplay (c : Command) : String :=
  match c.ctorName with
  | some s => if s = "" then "object" else s
  | none => "object"

/-- Message of `NoProcessorFoundError` (`errors.ts`). -/
def noProcessorFoundMessage (c : Command) : String :=
  "No processor found for command: " ++ jsCtorDisplay c

/-- Transaction status (`transaction.interface.ts`). -/
inductive TransactionStatus where
  | Pending
  | Completed
  | RolledBack
  deriving DecidableEq, Repr

/-- Transaction record (`transaction.interface.ts`); `metadata` is opaque to
the core and modelled as an optional string. -/
structure Transaction where
  id : String
  status : TransactionStatus
  commands : List Command
  metadata : Option String := none
  createdAt : Nat
  updatedAt : Nat
  deriving DecidableEq, Repr

/-- Options accepted by `initTransaction` (`transaction.interface.ts`). -/
structure TransactionOptions where
  id : Option String := none
  metadata : Option String := none
  deriving DecidableEq, Repr

/-- A capability (`processor.interface.ts`): a matcher plus the outcomes of
its user-supplied `process` and `rollBack` steps, where `none` means the step
succeeds and `some e` means it throws `e`. -/
structure CommandProcessor where
  canProcess : Command → Bool
  processResult : Command → Transaction → Option JsError
  rollBackResult : Command → Transaction → Option JsError

/-- Observable events of one saga run: capability invocations (identified by
the processor's position in the registered list) and storage-port calls. The
storage port (`repository.interface.ts`) also offers `findById`, `deleteById`
and `findByStatus`; the corresponding events exist so that we can state that
the core never emits them. -/
inductive Event where
  | applyStep (procIdx : Nat) (cmd : Command)
  | compensateStep (procIdx : Nat) (cmd : Command)
  | repoCreate (tx : Transaction)
  | repoUpdate (id : String) (status : TransactionStatus) (updatedAt : Nat)
  | repoFindById (id : String)
  | repoDeleteById (id : String)
  | repoFindByStatus (status : TransactionStatus)
  deriving DecidableEq, Repr

/-- Saga configuration (`SagaConfig` in `saga.ts`): the ordered list of
registered processors and whether a storage port is configured. -/
structure Saga where
  processors : List CommandProcessor
  repository : Bool := false

/-- Internal enum `TransactionProcessAction` of `saga.ts`. -/
inductive TransactionProcessAction where
  | Commit
  | RollBack
  deriving DecidableEq, Repr

/-- Dispatch: `this.processors.find((p) => p.canProcess(command))`, returning
also the position of the processor found, used to identify it in the trace. -/
def findProcessor : List CommandProcessor → Command → Option (Nat × CommandProcessor)
  | [], _ => none
  | p :: ps, c =>
    if p.canProcess c then some (0, p)
    else (findProcessor ps c).map (fun ip => (ip.1 + 1, ip.2))

/-- Event emitted when a processor step runs for a command. -/
def stepEvent (action : TransactionProcessAction) (i : Nat) (c : Command) : Event :=
  match action with
  | .Commit => .applyStep i c
  | .RollBack => .compensateStep i c

/-- Outcome of the `switch (action)` body in `processTransaction`: the matched
processor's `process` step on Commit, its `rollBack` step on RollBack. -/
def stepResult (action : TransactionProcessAction) (p : CommandProcessor)
    (c : Command) (tx : Transaction) : Option JsError :=
  match action with
  | .Commit => p.processResult c tx
  | .RollBack => p.rollBackResult c tx

/-- The `for (const command of commands)` loop of `processTransaction`: find a
processor for each command in turn (throwing `NoProcessorFoundError` when none
matches), run the step for the given action, stop at the first thrown error.
Returns the trace of processor invocations and the error, if any. -/
def processCommands (saga : Saga) (tx : Transaction)
    (action : TransactionProcessAction) :
    List Command → List Event × Option JsError
  | [] => ([], none)
  | c :: cs =>
    match findProcessor saga.processors c with
    | none => ([], some (.noProcessorFound (noProcessorFoundMessage c)))
    | some ip =>
      match stepResult action ip.2 c tx with
      | some e => ([stepEvent action ip.1 c], some e)
      | none =>
        let rest := processCommands saga tx action cs
        (stepEvent action ip.1 c :: rest.1, rest.2)

/-- Command order used by `processTransaction`: the reversed command list for
RollBack, the original list for Commit. -/
def effectiveCommands (tx : Transaction) (action : TransactionProcessAction) :
    List Command :=
  match action with
  | .RollBack => tx.commands.reverse
  | .Commit => tx.commands

/-- `Saga.processTransaction`: guard on `!transaction.id` (the empty string is
the only falsy value of a TS `string`), then walk the commands for the given
action. -/
def processTransaction (saga : Saga) (tx : Transaction)
    (action : TransactionProcessAction) : List Event × Option JsError :=
  if tx.id = "" then
    ([], some (.error "Only initialized transactions can be processed"))
  else processCommands saga tx action (effectiveCommands tx action)

/-- Identifier selection in `initTransaction`: `options?.id || randomUUID()` —
the supplied id is used only when present and truthy (non-empty). -/
def chosenId (options : Option TransactionOptions) (genId : String) : String :=
  match options with
  | some o =>
    match o.id with
    | some s => if s = "" then genId else s
    | none => genId
  | none => genId

/-- `Saga.initTransaction`: reject a null (`none`) or empty command list, build
the Pending transaction, and persist it via the storage port's `create` when a
port is configured. -/
def initTransaction (saga : Saga) (commands : Option (List Command))
    (options : Option TransactionOptions) (genId : String) (now : Nat) :
    Except JsError Transaction × List Event :=
  match commands with
  | none => (.error (.error "Commands can\x27t be null or empty"), [])
  | some cs =>
    if cs = [] then (.error (.error "Commands can\x27t be null or empty"), [])
    else
      let transaction : Transaction :=
        { id := chosenId options genId
          status := .Pending
          commands := cs
          metadata := options.bind (fun o => o.metadata)
          createdAt := now
          updatedAt := now }
      (.ok transaction,
        if saga.repository then [Event.repoCreate transaction] else [])

/-- `Saga.commitTransaction`: run the Commit pass; on success mutate the
transaction to Completed with a refreshed `updatedAt` and persist the update
via `findByIdAndUpdate` when a port is configured. On failure the transaction
is left untouched and the error propagates. -/
def commitTransaction (saga : Saga) (tx : Transaction) (now : Nat) :
    Transaction × List Event × Option JsError :=
  match processTransaction saga tx .Commit with
  | (evs, some e) => (tx, evs, some e)
  | (evs, none) =>
    let tx2 : Transaction := { tx with status := .Completed, updatedAt := now }
    (tx2,
      evs ++ (if saga.repository then [Event.repoUpdate tx2.id .Completed now] else []),
      none)

/-- `Saga.rollBackTransaction`: run the RollBack pass over the reversed
command list; on success mutate the transaction to RolledBack with a refreshed
`updatedAt` and persist the update when a port is configured. -/
def rollBackTransaction (saga : Saga) (tx : Transaction) (now : Nat) :
    Transaction × List Event × Option JsError :=
  match processTransaction saga tx .RollBack with
  | (evs, some e) => (tx, evs, some e)
  | (evs, none) =>
    let tx2 : Transaction := { tx with status := .RolledBack, updatedAt := now }
    (tx2,
      evs ++ (if saga.repository then [Event.repoUpdate tx2.id .RolledBack now] else []),
      none)

/-- `Saga.execute`: initialize, then commit inside a try/catch whose handler
awaits `rollBackTransaction` before re-throwing the caught error. Note that
when the rollback itself throws, its error propagates instead of the caught
one, because the `throw error` statement is never reached. The three clock
values are the times at which init, commit and rollback finish. -/
def execute (saga : Saga) (commands : Option (List Command))
    (options : Option TransactionOptions) (genId : String) (t0 t1 t2 : Nat) :
    Except JsError Transaction × List Event :=
  match initTransaction saga commands options genId t0 with
  | (.error e, evs) => (.error e, evs)
  | (.ok tx, evs0) =>
    match commitTransaction saga tx t1 with
    | (tx2, evs1, none) => (.ok tx2, evs0 ++ evs1)
    | (tx2, evs1, some e) =>
      match rollBackTransaction saga tx2 t2 with
      | (_, evs2, none) => (.error e, evs0 ++ evs1 ++ evs2)
      | (_, evs2, some e2) => (.error e2, evs0 ++ evs1 ++ evs2)

/-- Combined dispatch-and-run outcome for one command: `none` when no
processor matches, `some none` when the step succeeds, `some (some e)` when
the matched processor's step throws `e`. -/
def stepOutcome (saga : Saga) (tx : Transaction)
    (action : TransactionProcessAction) (c : Command) : Option (Option JsError) :=
  (findProcessor saga.processors c).map (fun ip => stepResult action ip.2 c tx)

/-- The event a successful dispatch of `c` produces (the index defaults to 0
when no processor matches, a case the lemmas exclude). -/
def traceStep (saga : Saga) (action : TransactionProcessAction) (c : Command) : Event :=
  stepEvent action (((findProcessor saga.processors c).map (fun ip => ip.1)).getD 0) c

/-- Recognizer for capability apply invocations in a trace. -/
def isApplyEvent : Event → Bool
  | .applyStep _ _ => true
  | _ => false

/-- Recognizer for capability compensate invocations in a trace. -/
def isCompensateEvent : Event → Bool
  | .compensateStep _ _ => true
  | _ => false

/-- Recognizer for storage-port operations other than `create` and
`findByIdAndUpdate`. -/
def isOtherRepoOp : Event → Bool
  | .repoFindById _ => true
  | .repoDeleteById _ => true
  | .repoFindByStatus _ => true
  | _ => false

/-- Transaction record built by `initTransaction` for a valid command list. -/
def mkTransaction (cs : List Command) (options : Option TransactionOptions)
    (genId : String) (now : Nat) : Transaction :=
  { id := chosenId options genId
    status := .Pending
    commands := cs
    metadata := options.bind (fun o => o.metadata)
    createdAt := now
    updatedAt := now }

/-- Recognizer for storage-port calls (`create` or `findByIdAndUpdate`). -/
def isRepoCall : Event → Bool
  | .applyStep _ _ => false
  | .compensateStep _ _ => false
  | _ => true

/-- Helper: a successful dispatch pins the emitted trace event. -/
theorem traceStep_of_findProcessor (saga : Saga) (action : TransactionProcessAction)
    (c : Command) (i : Nat) (p : CommandProcessor)
    (h : findProcessor saga.processors c = some (i, p)) :
    traceStep saga action c = stepEvent action i c := by
  simp [traceStep, h]

/-- Helper: when every command in the list dispatches and its step succeeds,
the loop emits one step event per command, in list order, and no error. -/
theorem processCommands_all_ok (saga : Saga) (tx : Transaction)
    (action : TransactionProcessAction) (l : List Command)
    (h : ∀ c ∈ l, stepOutcome saga tx action c = some none) :
    processCommands saga tx action l = (l.map (traceStep saga action), none) := by
  induction l with
  | nil => rfl
  | cons c cs ih =>
    have hc := h c (List.mem_cons_self c cs)
    unfold stepOutcome at hc
    rcases hfp : findProcessor saga.processors c with _ | ip
    · rw [hfp] at hc; exact absurd hc (by simp)
    · rw [hfp] at hc
      simp only [Option.map_some', Option.some.injEq] at hc
      simp [processCommands, hfp, hc,
        traceStep_of_findProcessor saga action c ip.1 ip.2 hfp,
        ih (fun x hx => h x (List.mem_cons_of_mem _ hx))]

/-- Helper: when every command of `pre` succeeds and the step of `ck` throws
`E`, the loop emits the events of `pre` plus the one for `ck` and stops with
`E`; nothing of `post` is attempted. -/
theorem processCommands_fail_at (saga : Saga) (tx : Transaction)
    (action : TransactionProcessAction) (pre post : List Command)
    (ck : Command) (E : JsError)
    (hpre : ∀ c ∈ pre, stepOutcome saga tx action c = some none)
    (hk : stepOutcome saga tx action ck = some (some E)) :
    processCommands saga tx action (pre ++ ck :: post) =
      (pre.map (traceStep saga action) ++ [traceStep saga action ck], some E) := by
  induction pre with
  | nil =>
    unfold stepOutcome at hk
    rcases hfp : findProcessor saga.processors ck with _ | ip
    · rw [hfp] at hk; exact absurd hk (by simp)
    · rw [hfp] at hk
      simp only [Option.map_some', Option.some.injEq] at hk
      simp [processCommands, hfp, hk,
        traceStep_of_findProcessor saga action ck ip.1 ip.2 hfp]
  | cons c cs ih =>
    have hc := hpre c (List.mem_cons_self c cs)
    unfold stepOutcome at hc
    rcases hfp : findProcessor saga.processors c with _ | ip
    · rw [hfp] at hc; exact absurd hc (by simp)
    · rw [hfp] at hc
      simp only [Option.map_some', Option.some.injEq] at hc
      simp [processCommands, hfp, hc,
        traceStep_of_findProcessor saga action c ip.1 ip.2 hfp,
        ih (fun x hx => hpre x (List.mem_cons_of_mem _ hx))]

/-- Helper: when every command of `pre` succeeds and no processor matches `c`,
the loop emits the events of `pre` and stops with `NoProcessorFoundError`;
nothing of `post` is attempted and no step runs for `c`. -/
theorem processCommands_no_match (saga : Saga) (tx : Transaction)
    (action : TransactionProcessAction) (pre post : List Command) (c : Command)
    (hpre : ∀ x ∈ pre, stepOutcome saga tx action x = some none)
    (hc : findProcessor saga.processors c = none) :
    processCommands saga tx action (pre ++ c :: post) =
      (pre.map (traceStep saga action),
       some (.noProcessorFound (noProcessorFoundMessage c))) := by
  induction pre with
  | nil => simp [processCommands, hc]
  | cons x xs ih =>
    have hx := hpre x (List.mem_cons_self x xs)
    unfold stepOutcome at hx
    rcases hfp : findProcessor saga.processors x with _ | ip
    · rw [hfp] at hx; exact absurd hx (by simp)
    · rw [hfp] at hx
      simp only [Option.map_some', Option.some.injEq] at hx
      simp [processCommands, hfp, hx,
        traceStep_of_findProcessor saga action x ip.1 ip.2 hfp,
        ih (fun y hy => hpre y (List.mem_cons_of_mem _ hy))]

/-- Helper: every event the loop emits is the step event of a command of the
list, carrying the index at which dispatch found its processor. -/
theorem processCommands_events (saga : Saga) (tx : Transaction)
    (action : TransactionProcessAction) (l : List Command) (ev : Event)
    (h : ev ∈ (processCommands saga tx action l).1) :
    ∃ i p c, c ∈ l ∧ findProcessor saga.processors c = some (i, p) ∧
      ev = stepEvent action i c := by
  induction l with
  | nil => exact absurd h (by simp [processCommands])
  | cons c cs ih =>
    rcases hfp : findProcessor saga.processors c with _ | ip
    · rw [processCommands, hfp] at h
      exact absurd h (by simp)
    · rw [processCommands, hfp] at h
      rcases hr : stepResult action ip.2 c tx with _ | e
      · simp only [hr, List.mem_cons] at h
        rcases h with h | h
        · exact ⟨ip.1, ip.2, c, List.mem_cons_self c cs, hfp, h⟩
        · obtain ⟨i, p, c2, hc2, hfp2, hev⟩ := ih h
          exact ⟨i, p, c2, List.mem_cons_of_mem _ hc2, hfp2, hev⟩
      · simp only [hr, List.mem_singleton] at h
        exact ⟨ip.1, ip.2, c, List.mem_cons_self c cs, hfp, h⟩

/-- Helper: `Array.find`-style first-match characterization of dispatch: when
position `i` matches and every earlier position does not, dispatch returns the
processor at position `i`. -/
theorem findProcessor_eq_first (ps : List CommandProcessor) (c : Command) (i : Nat)
    (hi : i < ps.length)
    (hmatch : (ps.get ⟨i, hi⟩).canProcess c = true)
    (hfirst : ∀ j, ∀ hj : j < ps.length, j < i → (ps.get ⟨j, hj⟩).canProcess c = false) :
    findProcessor ps c = some (i, ps.get ⟨i, hi⟩) := by
  induction ps generalizing i with
  | nil => exact absurd hi (by simp)
  | cons p ps ih =>
    cases i with
    | zero => simp_all [findProcessor]
    | succ n =>
      have h0 : p.canProcess c = false := hfirst 0 (by simp) (Nat.succ_pos n)
      have hn : n < ps.length := Nat.lt_of_succ_lt_succ hi
      have hrec := ih n hn hmatch
        (fun j hj hji =>
          hfirst (j + 1) (Nat.succ_lt_succ hj) (Nat.succ_lt_succ hji))
      simp [findProcessor, h0, hrec]

/-- Helper: characterization of a valid `initTransaction` call — a non-empty
command list yields the Pending transaction built by `mkTransaction`, and the
trace holds exactly the storage `create` call when a port is configured. -/
theorem initTransaction_some_ne (saga : Saga) (cs : List Command)
    (opts : Option TransactionOptions) (genId : String) (now : Nat)
    (hne : cs ≠ []) :
    initTransaction saga (some cs) opts genId now =
      (.ok (mkTransaction cs opts genId now),
       if saga.repository then [Event.repoCreate (mkTransaction cs opts genId now)]
       else []) := by
  simp [initTransaction, hne, mkTransaction]

/-- Helper: the id picked by `options?.id || randomUUID()` is never empty when
the generated id is not (real UUIDs never are). -/
theorem chosenId_ne_empty (opts : Option TransactionOptions) (genId : String)
    (h : genId ≠ "") : chosenId opts genId ≠ "" := by
  rcases opts with _ | o
  · simpa [chosenId] using h
  · rcases ho : o.id with _ | s
    · simpa [chosenId, ho] using h
    · by_cases hs : s = "" <;> simp [chosenId, ho, hs, h]

/-- Helper: when the supplied id is absent or falsy, the generated id is
used. -/
theorem chosenId_falsy (opts : Option TransactionOptions) (genId : String)
    (h : opts.bind (fun o => o.id) = none ∨ opts.bind (fun o => o.id) = some "") :
    chosenId opts genId = genId := by
  rcases opts with _ | o
  · rfl
  · have h2 : o.id = none ∨ o.id = some "" := h
    rcases ho : o.id with _ | s
    · simp [chosenId, ho]
    · rw [ho] at h2
      rcases h2 with h2 | h2
      · exact absurd h2 (by simp)
      · simp only [Option.some.injEq] at h2
        simp [chosenId, ho, h2]

/-- Helper: a truthy supplied id is used verbatim. -/
theorem chosenId_truthy (o : TransactionOptions) (genId s : String)
    (ho : o.id = some s) (hs : s ≠ "") : chosenId (some o) genId = s := by
  simp [chosenId, ho, hs]

/-- Helper: a transaction with a truthy id passes the guard, so
`processTransaction` is the loop over the action's command order. -/
theorem processTransaction_of_id (saga : Saga) (tx : Transaction)
    (action : TransactionProcessAction) (hid : tx.id ≠ "") :
    processTransaction saga tx action =
      processCommands saga tx action (effectiveCommands tx action) := by
  simp [processTransaction, hid]

/-- Helper: every event `processTransaction` emits is a processor step event
whose index is the dispatch position of its command. -/
theorem processTransaction_events (saga : Saga) (tx : Transaction)
    (action : TransactionProcessAction) (ev : Event)
    (h : ev ∈ (processTransaction saga tx action).1) :
    ∃ i p c, findProcessor saga.processors c = some (i, p) ∧
      ev = stepEvent action i c := by
  by_cases hid : tx.id = ""
  · simp [processTransaction, hid] at h
  · rw [processTransaction_of_id saga tx action hid] at h
    obtain ⟨i, p, c, _, hfp, hev⟩ := processCommands_events saga tx action _ ev h
    exact ⟨i, p, c, hfp, hev⟩

/-- Helper: a predicate false on all step events filters the processing trace
to nothing. -/
theorem processTransaction_filter_nil (saga : Saga) (tx : Transaction)
    (action : TransactionProcessAction) (p : Event → Bool)
    (hp : ∀ a i c, p (stepEvent a i c) = false) :
    (processTransaction saga tx action).1.filter p = [] := by
  rw [List.filter_eq_nil_iff]
  intro ev hev
  obtain ⟨i, q, c, _, hev2⟩ := processTransaction_events saga tx action ev hev
  simp [hev2, hp]

/-- Helper: a commit pass in which every command dispatches and succeeds
completes the transaction, emits the apply events in list order followed by
the storage update when a port is configured, and reports no error. -/
theorem commitTransaction_all_ok (saga : Saga) (tx : Transaction) (now : Nat)
    (hid : tx.id ≠ "")
    (h : ∀ c ∈ tx.commands, stepOutcome saga tx .Commit c = some none) :
    commitTransaction saga tx now =
      ({ tx with status := .Completed, updatedAt := now },
       tx.commands.map (traceStep saga .Commit) ++
         (if saga.repository then [Event.repoUpdate tx.id .Completed now] else []),
       none) := by
  have hp : processTransaction saga tx .Commit =
      (tx.commands.map (traceStep saga .Commit), none) := by
    rw [processTransaction_of_id saga tx .Commit hid]
    exact processCommands_all_ok saga tx .Commit tx.commands h
  simp [commitTransaction, hp]

/-- Helper: a failed commit pass leaves the transaction untouched and
propagates the error. -/
theorem commitTransaction_fail (saga : Saga) (tx : Transaction) (now : Nat)
    (evs : List Event) (E : JsError)
    (h : processTransaction saga tx .Commit = (evs, some E)) :
    commitTransaction saga tx now = (tx, evs, some E) := by
  simp [commitTransaction, h]

/-- Helper: a rollback pass in which every command dispatches and its
compensation succeeds rolls the transaction back, emitting compensation
events for the full reversed command list followed by the storage update when
a port is configured. -/
theorem rollBackTransaction_all_ok (saga : Saga) (tx : Transaction) (now : Nat)
    (hid : tx.id ≠ "")
    (h : ∀ c ∈ tx.commands, stepOutcome saga tx .RollBack c = some none) :
    rollBackTransaction saga tx now =
      ({ tx with status := .RolledBack, updatedAt := now },
       tx.commands.reverse.map (traceStep saga .RollBack) ++
         (if saga.repository then [Event.repoUpdate tx.id .RolledBack now] else []),
       none) := by
  have h2 : ∀ c ∈ tx.commands.reverse, stepOutcome saga tx .RollBack c = some none :=
    fun c hc => h c (List.mem_reverse.mp hc)
  have hp : processTransaction saga tx .RollBack =
      (tx.commands.reverse.map (traceStep saga .RollBack), none) := by
    rw [processTransaction_of_id saga tx .RollBack hid]
    exact processCommands_all_ok saga tx .RollBack tx.commands.reverse h2
  simp [rollBackTransaction, hp]

/-- Helper: a failed rollback pass leaves the transaction untouched and
propagates the error. -/
theorem rollBackTransaction_fail (saga : Saga) (tx : Transaction) (now : Nat)
    (evs : List Event) (E : JsError)
    (h : processTransaction saga tx .RollBack = (evs, some E)) :
    rollBackTransaction saga tx now = (tx, evs, some E) := by
  simp [rollBackTransaction, h]

/-- Helper: a predicate true on every mapped step event keeps the whole mapped
trace. -/
theorem filter_traceStep_self (saga : Saga) (action : TransactionProcessAction)
    (l : List Command) (p : Event → Bool)
    (hp : ∀ c, p (traceStep saga action c) = true) :
    (l.map (traceStep saga action)).filter p = l.map (traceStep saga action) := by
  rw [List.filter_eq_self]
  intro a ha
  obtain ⟨c, _, rfl⟩ := List.mem_map.mp ha
  exact hp c

/-- Helper: a predicate false on every mapped step event filters the mapped
trace to nothing. -/
theorem filter_traceStep_nil (saga : Saga) (action : TransactionProcessAction)
    (l : List Command) (p : Event → Bool)
    (hp : ∀ c, p (traceStep saga action c) = false) :
    (l.map (traceStep saga action)).filter p = [] := by
  rw [List.filter_eq_nil_iff]
  intro a ha
  obtain ⟨c, _, rfl⟩ := List.mem_map.mp ha
  simp [hp c]

/-- Helper: the core's initialization trace never holds a storage-port call
other than `create`. -/
theorem initTransaction_filter_other (saga : Saga) (cmds : Option (List Command))
    (opts : Option TransactionOptions) (genId : String) (now : Nat) :
    (initTransaction saga cmds opts genId now).2.filter isOtherRepoOp = [] := by
  rcases cmds with _ | cs
  · rfl
  · by_cases h : cs = []
    · subst h; rfl
    · rw [initTransaction_some_ne saga cs opts genId now h]
      cases hrep : saga.repository <;> simp [isOtherRepoOp]

/-- Helper: the commit trace never holds a storage-port call other than
`findByIdAndUpdate`. -/
theorem commitTransaction_filter_other (saga : Saga) (tx : Transaction) (now : Nat) :
    (commitTransaction saga tx now).2.1.filter isOtherRepoOp = [] := by
  rcases hp : processTransaction saga tx .Commit with ⟨evs, r⟩
  have hevs : evs.filter isOtherRepoOp = [] := by
    have h2 := processTransaction_filter_nil saga tx .Commit isOtherRepoOp
      (fun a i c => by cases a <;> rfl)
    rw [hp] at h2; exact h2
  cases r with
  | some e => simp [commitTransaction, hp, hevs]
  | none =>
    cases hrep : saga.repository <;>
      simp [commitTransaction, hp, List.filter_append, hevs, isOtherRepoOp, hrep]

/-- Helper: the rollback trace never holds a storage-port call other than
`findByIdAndUpdate`. -/
theorem rollBackTransaction_filter_other (saga : Saga) (tx : Transaction) (now : Nat) :
    (rollBackTransaction saga tx now).2.1.filter isOtherRepoOp = [] := by
  rcases hp : processTransaction saga tx .RollBack with ⟨evs, r⟩
  have hevs : evs.filter isOtherRepoOp = [] := by
    have h2 := processTransaction_filter_nil saga tx .RollBack isOtherRepoOp
      (fun a i c => by cases a <;> rfl)
    rw [hp] at h2; exact h2
  cases r with
  | some e => simp [rollBackTransaction, hp, hevs]
  | none =>
    cases hrep : saga.repository <;>
      simp [rollBackTransaction, hp, List.filter_append, hevs, isOtherRepoOp, hrep]

/-- Helper: no call of `execute` ever reaches the storage port's `findById`,
`deleteById` or `findByStatus` operations. -/
theorem execute_filter_other (saga : Saga) (cmds : Option (List Command))
    (opts : Option TransactionOptions) (genId : String) (t0 t1 t2 : Nat) :
    (execute saga cmds opts genId t0 t1 t2).2.filter isOtherRepoOp = [] := by
  rcases h0 : initTransaction saga cmds opts genId t0 with ⟨r0, evs0⟩
  have he0 : evs0.filter isOtherRepoOp = [] := by
    have h2 := initTransaction_filter_other saga cmds opts genId t0
    rw [h0] at h2; exact h2
  cases r0 with
  | error e => simp [execute, h0, he0]
  | ok tx =>
    rcases h1 : commitTransaction saga tx t1 with ⟨tx2, evs1, r1⟩
    have he1 : evs1.filter isOtherRepoOp = [] := by
      have h2 := commitTransaction_filter_other saga tx t1
      rw [h1] at h2; exact h2
    cases r1 with
    | none => simp [execute, h0, h1, List.filter_append, he0, he1]
    | some e =>
      rcases h2 : rollBackTransaction saga tx2 t2 with ⟨tx3, evs2, r2⟩
      have he2 : evs2.filter isOtherRepoOp = [] := by
        have h3 := rollBackTransaction_filter_other saga tx2 t2
        rw [h2] at h3; exact h3
      cases r2 <;> simp [execute, h0, h1, h2, List.filter_append, he0, he1, he2]

/-- Helper: a commit-pass trace event is an apply event. -/
theorem isApplyEvent_commitStep (saga : Saga) (c : Command) :
    isApplyEvent (traceStep saga .Commit c) = true := rfl

/-- Helper: a commit-pass trace event is not a compensate event. -/
theorem isCompEvent_commitStep (saga : Saga) (c : Command) :
    isCompensateEvent (traceStep saga .Commit c) = false := rfl

/-- Helper: a rollback-pass trace event is not an apply event. -/
theorem isApplyEvent_rollbackStep (saga : Saga) (c : Command) :
    isApplyEvent (traceStep saga .RollBack c) = false := rfl

/-- Helper: a rollback-pass trace event is a compensate event. -/
theorem isCompEvent_rollbackStep (saga : Saga) (c : Command) :
    isCompensateEvent (traceStep saga .RollBack c) = true := rfl

/-- Concrete capability that matches every command and always succeeds. -/
def procOk : CommandProcessor :=
  { canProcess := fun _ => true
    processResult := fun _ _ => none
    rollBackResult := fun _ _ => none }

/-- Concrete capability whose apply step throws error 1 and whose compensate
step throws error 2, exercising the failure paths. -/
def procFailBoth : CommandProcessor :=
  { canProcess := fun _ => true
    processResult := fun _ _ => some (.custom 1)
    rollBackResult := fun _ _ => some (.custom 2) }

/-- Concrete capability whose apply step throws error 1 exactly on commands
with payload "a" and whose compensate step always succeeds. -/
def procFailOnA : CommandProcessor :=
  { canProcess := fun _ => true
    processResult := fun c _ => if c.value = "a" then some (.custom 1) else none
    rollBackResult := fun _ _ => none }

/-- Saga with one always-succeeding capability and no storage port. -/
def sagaOk : Saga := { processors := [procOk] }

/-- Saga whose only capability fails both its apply and compensate steps. -/
def sagaFailBoth : Saga := { processors := [procFailBoth] }

/-- Saga whose only capability fails its apply step on payload "a". -/
def sagaFailOnA : Saga := { processors := [procFailOnA] }

/-- Saga with no registered capability. -/
def sagaEmpty : Saga := { processors := [] }

/-- Saga with two capabilities that both match every command. -/
def sagaTwo : Saga := { processors := [procOk, procFailBoth] }

/-- Saga with one always-succeeding capability and a storage port. -/
def sagaRepo : Saga := { processors := [procOk], repository := true }

/-- Concrete command with discriminator and payload "a". -/
def cmdA : Command := { type := some "a", value := "a" }

/-- Concrete command with discriminator and payload "b". -/
def cmdB : Command := { type := some "b", value := "b" }

/-- The plain object literal command of the spec's concrete scenario C. -/
def cmdUnknown : Command := { type := some "unknown" }

/-- Transaction that `initTransaction` builds for `[cmdA]` with no options. -/
def txA : Transaction := mkTransaction [cmdA] none "gid" 0

/-- C1 counterexample: with a single command whose apply step throws error 1
and whose compensate step throws error 2, the commit phase of `execute`
raises error 1, but `execute` rejects with error 2 — the rollback error — not
the original commit error, because `rollBackTransaction` throws before the
`throw error` statement is reached. -/
theorem c1_counterexample :
    (commitTransaction sagaFailBoth txA 1).2.2 = some (JsError.custom 1) ∧
    (execute sagaFailBoth (some [cmdA]) none "gid" 0 1 2).1 =
      Except.error (JsError.custom 2) ∧
    JsError.custom 2 ≠ JsError.custom 1 :=
  ⟨rfl, rfl, by decide⟩

/-- C1 (amended): if the commit phase of `execute` raises `E`, rollback is
invoked on the same transaction object and its events appear in the trace
after the commit events; the error `execute` finally throws equals `E` when
the rollback pass succeeds, but equals the rollback's own error when the
rollback pass itself fails. -/
theorem c1_rollback_then_original_error (saga : Saga) (cs : List Command)
    (opts : Option TransactionOptions) (genId : String) (t0 t1 t2 : Nat)
    (tx : Transaction) (E : JsError)
    (hinit : (initTransaction saga (some cs) opts genId t0).1 = .ok tx)
    (hcommit : (commitTransaction saga tx t1).2.2 = some E) :
    (execute saga (some cs) opts genId t0 t1 t2).1 =
      .error ((rollBackTransaction saga (commitTransaction saga tx t1).1 t2).2.2.getD E) ∧
    (execute saga (some cs) opts genId t0 t1 t2).2 =
      (initTransaction saga (some cs) opts genId t0).2 ++
        (commitTransaction saga tx t1).2.1 ++
        (rollBackTransaction saga (commitTransaction saga tx t1).1 t2).2.1 := by
  rcases h0 : initTransaction saga (some cs) opts genId t0 with ⟨r0, evs0⟩
  rw [h0] at hinit
  simp only at hinit
  subst hinit
  rcases h1 : commitTransaction saga tx t1 with ⟨tx2, evs1, r1⟩
  rw [h1] at hcommit
  simp only at hcommit
  subst hcommit
  rcases h2 : rollBackTransaction saga tx2 t2 with ⟨tx3, evs2, r2⟩
  cases r2 <;> simp [execute, h0, h1, h2]

/-- C1 witness: the amended theorem instantiated at the failing-compensation
configuration. -/
theorem c1_witness :
    (execute sagaFailBoth (some [cmdA]) none "gid" 0 1 2).1 =
      .error ((rollBackTransaction sagaFailBoth
        (commitTransaction sagaFailBoth txA 1).1 2).2.2.getD (JsError.custom 1)) ∧
    (execute sagaFailBoth (some [cmdA]) none "gid" 0 1 2).2 =
      (initTransaction sagaFailBoth (some [cmdA]) none "gid" 0).2 ++
        (commitTransaction sagaFailBoth txA 1).2.1 ++
        (rollBackTransaction sagaFailBoth
          (commitTransaction sagaFailBoth txA 1).1 2).2.1 :=
  c1_rollback_then_original_error sagaFailBoth [cmdA] none "gid" 0 1 2 txA
    (JsError.custom 1) rfl rfl

/-- C2 counterexample: commands [a, b] where a's apply step fails immediately
(k = 1): the automatic rollback nevertheless compensates command b — which was
never applied — before compensating a, contradicting the claim that only
commands k..1 are compensated. The thrown error is still the one from step
k. -/
theorem c2_counterexample :
    (execute sagaFailOnA (some [cmdA, cmdB]) none "gid" 0 1 2).1 =
      Except.error (JsError.custom 1) ∧
    (execute sagaFailOnA (some [cmdA, cmdB]) none "gid" 0 1 2).2 =
      [Event.applyStep 0 cmdA, Event.compensateStep 0 cmdB,
       Event.compensateStep 0 cmdA] ∧
    cmdB ≠ cmdA :=
  ⟨rfl, rfl, by decide⟩

/-- C2 (amended): when apply steps 1..k-1 succeed, the k-th apply step fails
with E, and every compensate step (and the storage update, when configured)
succeeds, the automatic rollback invokes the compensate step for ALL commands
n, n-1, ..., 1 — the full command list in reverse order, including the
commands k+1..n that were never applied — and the error `execute` throws
equals E, the one raised at step k. -/
theorem c2_rollback_full_reverse (saga : Saga) (pre post : List Command)
    (ck : Command) (E : JsError) (opts : Option TransactionOptions)
    (genId : String) (t0 t1 t2 : Nat)
    (hgen : genId ≠ "")
    (hpre : ∀ c ∈ pre,
      stepOutcome saga (mkTransaction (pre ++ ck :: post) opts genId t0) .Commit c = some none)
    (hk : stepOutcome saga (mkTransaction (pre ++ ck :: post) opts genId t0) .Commit ck
      = some (some E))
    (hrb : ∀ c ∈ pre ++ ck :: post,
      stepOutcome saga (mkTransaction (pre ++ ck :: post) opts genId t0) .RollBack c = some none) :
    (execute saga (some (pre ++ ck :: post)) opts genId t0 t1 t2).1 = .error E ∧
    (execute saga (some (pre ++ ck :: post)) opts genId t0 t1 t2).2.filter isCompensateEvent =
      (pre ++ ck :: post).reverse.map (traceStep saga .RollBack) ∧
    (execute saga (some (pre ++ ck :: post)) opts genId t0 t1 t2).2.filter isApplyEvent =
      (pre ++ [ck]).map (traceStep saga .Commit) := by
  have hne : (pre ++ ck :: post) ≠ [] := by simp
  have h0 := initTransaction_some_ne saga (pre ++ ck :: post) opts genId t0 hne
  have hid : (mkTransaction (pre ++ ck :: post) opts genId t0).id ≠ "" :=
    chosenId_ne_empty opts genId hgen
  have hpt : processTransaction saga (mkTransaction (pre ++ ck :: post) opts genId t0) .Commit =
      (pre.map (traceStep saga .Commit) ++ [traceStep saga .Commit ck], some E) := by
    rw [processTransaction_of_id _ _ _ hid]
    exact processCommands_fail_at saga _ .Commit pre post ck E hpre hk
  have hct := commitTransaction_fail saga (mkTransaction (pre ++ ck :: post) opts genId t0) t1 _ E hpt
  have hrt := rollBackTransaction_all_ok saga (mkTransaction (pre ++ ck :: post) opts genId t0) t2 hid hrb
  have hcm : (mkTransaction (pre ++ ck :: post) opts genId t0).commands = pre ++ ck :: post := rfl
  have hexec : execute saga (some (pre ++ ck :: post)) opts genId t0 t1 t2 =
      ((Except.error E : Except JsError Transaction),
       (if saga.repository then
          [Event.repoCreate (mkTransaction (pre ++ ck :: post) opts genId t0)] else []) ++
        (pre.map (traceStep saga .Commit) ++ [traceStep saga .Commit ck]) ++
        ((pre ++ ck :: post).reverse.map (traceStep saga .RollBack) ++
         (if saga.repository then
            [Event.repoUpdate (mkTransaction (pre ++ ck :: post) opts genId t0).id
              TransactionStatus.RolledBack t2] else []))) := by
    simp only [execute, h0, hct, hrt, hcm]
  have hfc1 : (pre.map (traceStep saga .Commit)).filter isCompensateEvent = [] :=
    filter_traceStep_nil saga .Commit pre isCompensateEvent (fun c => rfl)
  have hfa1 : (pre.map (traceStep saga .Commit)).filter isApplyEvent =
      pre.map (traceStep saga .Commit) :=
    filter_traceStep_self saga .Commit pre isApplyEvent (fun c => rfl)
  have hfc2 : ((pre ++ ck :: post).reverse.map (traceStep saga .RollBack)).filter isCompensateEvent =
      (pre ++ ck :: post).reverse.map (traceStep saga .RollBack) :=
    filter_traceStep_self saga .RollBack (pre ++ ck :: post).reverse isCompensateEvent
      (fun c => rfl)
  have hfa2 : ((pre ++ ck :: post).reverse.map (traceStep saga .RollBack)).filter isApplyEvent = [] :=
    filter_traceStep_nil saga .RollBack (pre ++ ck :: post).reverse isApplyEvent
      (fun c => rfl)
  have hs1c : ([traceStep saga .Commit ck]).filter isCompensateEvent = [] := rfl
  have hs1a : ([traceStep saga .Commit ck]).filter isApplyEvent =
      [traceStep saga .Commit ck] := rfl
  have he0c : ((if saga.repository then
      [Event.repoCreate (mkTransaction (pre ++ ck :: post) opts genId t0)] else []) :
      List Event).filter isCompensateEvent = [] := by
    cases saga.repository <;> rfl
  have he0a : ((if saga.repository then
      [Event.repoCreate (mkTransaction (pre ++ ck :: post) opts genId t0)] else []) :
      List Event).filter isApplyEvent = [] := by
    cases saga.repository <;> rfl
  have he1c : ((if saga.repository then
      [Event.repoUpdate (mkTransaction (pre ++ ck :: post) opts genId t0).id
        TransactionStatus.RolledBack t2] else []) :
      List Event).filter isCompensateEvent = [] := by
    cases saga.repository <;> rfl
  have he1a : ((if saga.repository then
      [Event.repoUpdate (mkTransaction (pre ++ ck :: post) opts genId t0).id
        TransactionStatus.RolledBack t2] else []) :
      List Event).filter isApplyEvent = [] := by
    cases saga.repository <;> rfl
  refine ⟨by rw [hexec], ?_, ?_⟩
  · rw [hexec]
    simp only [List.filter_append, he0c, hfc1, hs1c, hfc2, he1c,
      List.nil_append, List.append_nil]
  · rw [hexec]
    simp only [List.filter_append, he0a, hfa1, hs1a, hfa2, he1a,
      List.nil_append, List.append_nil, List.map_append, List.map_cons,
      List.map_nil]

/-- C2 witness: the amended theorem instantiated at the two-command
configuration in which the first apply step fails. -/
theorem c2_witness :
    (execute sagaFailOnA (some ([] ++ cmdA :: [cmdB])) none "gid" 0 1 2).1 =
      .error (JsError.custom 1) ∧
    (execute sagaFailOnA (some ([] ++ cmdA :: [cmdB])) none "gid" 0 1 2).2.filter
        isCompensateEvent =
      ([] ++ cmdA :: [cmdB]).reverse.map (traceStep sagaFailOnA .RollBack) ∧
    (execute sagaFailOnA (some ([] ++ cmdA :: [cmdB])) none "gid" 0 1 2).2.filter
        isApplyEvent =
      ([] ++ [cmdA]).map (traceStep sagaFailOnA .Commit) :=
  c2_rollback_full_reverse sagaFailOnA [] [cmdB] cmdA (JsError.custom 1) none
    "gid" 0 1 2 (by decide) (by decide) (by decide) (by decide)

/-- C3 counterexample: for the command `\x7btype:"unknown"\x7d` (a plain
object literal) with no registered capability, `execute` fails with a
`NoProcessorFoundError`, but the error message is
"No processor found for command: Object" — it names the command's constructor,
and the discriminator string "unknown" appears nowhere in it. No apply or
compensate step is ever invoked (the trace is empty). -/
theorem c3_counterexample :
    (execute sagaEmpty (some [cmdUnknown]) none "gid" 0 1 2).1 =
      Except.error (JsError.noProcessorFound "No processor found for command: Object") ∧
    ¬ List.IsInfix "unknown".data (noProcessorFoundMessage cmdUnknown).data ∧
    (execute sagaEmpty (some [cmdUnknown]) none "gid" 0 1 2).2 = [] :=
  ⟨rfl, by decide, rfl⟩

/-- C3 (amended): when every command before `c` dispatches and succeeds and no
registered capability's canProcess returns true for `c`, the commit pass fails
with a NoProcessorFoundError whose message identifies the command's runtime
CONSTRUCTOR name (`"Object"` for plain command objects, via
`command.constructor?.name || typeof command`) — not its `type` discriminator —
and only the commands before `c` had their apply step invoked; no step of any
kind runs for `c` or for later commands. -/
theorem c3_no_processor_names_ctor (saga : Saga) (tx : Transaction)
    (pre post : List Command) (c : Command)
    (hid : tx.id ≠ "")
    (hcmds : tx.commands = pre ++ c :: post)
    (hpre : ∀ x ∈ pre, stepOutcome saga tx .Commit x = some none)
    (hc : findProcessor saga.processors c = none) :
    (processTransaction saga tx .Commit).2 =
      some (.noProcessorFound ("No processor found for command: " ++ jsCtorDisplay c)) ∧
    (processTransaction saga tx .Commit).1 = pre.map (traceStep saga .Commit) ∧
    ∀ i x, Event.applyStep i x ∈ (processTransaction saga tx .Commit).1 → x ∈ pre := by
  have hpt : processTransaction saga tx .Commit =
      (pre.map (traceStep saga .Commit),
       some (.noProcessorFound (noProcessorFoundMessage c))) := by
    rw [processTransaction_of_id saga tx .Commit hid]
    rw [show effectiveCommands tx .Commit = pre ++ c :: post from hcmds]
    exact processCommands_no_match saga tx .Commit pre post c hpre hc
  refine ⟨by rw [hpt] ; rfl, by rw [hpt], ?_⟩
  intro i x hx
  rw [hpt] at hx
  simp only at hx
  obtain ⟨y, hy, hey⟩ := List.mem_map.mp hx
  simp only [traceStep, stepEvent, Event.applyStep.injEq] at hey
  obtain ⟨-, rfl⟩ := hey
  exact hy

/-- C3 witness: the amended theorem instantiated at the concrete scenario of
the claim. -/
theorem c3_witness :
    (processTransaction sagaEmpty (mkTransaction [cmdUnknown] none "gid" 0) .Commit).2 =
      some (.noProcessorFound
        ("No processor found for command: " ++ jsCtorDisplay cmdUnknown)) ∧
    (processTransaction sagaEmpty (mkTransaction [cmdUnknown] none "gid" 0) .Commit).1 =
      ([] : List Command).map (traceStep sagaEmpty .Commit) :=
  ⟨(c3_no_processor_names_ctor sagaEmpty (mkTransaction [cmdUnknown] none "gid" 0)
      [] [] cmdUnknown (by decide) rfl (by decide) rfl).1,
   (c3_no_processor_names_ctor sagaEmpty (mkTransaction [cmdUnknown] none "gid" 0)
      [] [] cmdUnknown (by decide) rfl (by decide) rfl).2.1⟩

/-- C4 counterexample: a transaction reachable through the public operations
alone (initTransaction, then commitTransaction) reaches Completed, yet a
subsequent public rollBackTransaction call moves it to RolledBack — the
operations carry no status guard, so a transaction does transition out of
Completed. -/
theorem c4_counterexample :
    (initTransaction sagaOk (some [cmdA]) none "gid" 0).1 = .ok txA ∧
    (commitTransaction sagaOk txA 1).1.status = TransactionStatus.Completed ∧
    (rollBackTransaction sagaOk (commitTransaction sagaOk txA 1).1 2).1.status =
      TransactionStatus.RolledBack :=
  ⟨rfl, rfl, rfl⟩

/-- C4 (amended): `initTransaction` creates transactions in Pending; commit
only ever moves a status to Completed and rollback only ever to RolledBack —
in particular no operation ever sets a status back to Pending. The claimed
invariant fails only in that neither operation guards on the current status,
so invoking rollback on a Completed transaction (or commit on a RolledBack
one) does transition it out of that terminal status. -/
theorem c4_status_transitions (saga : Saga) (tx : Transaction) (now : Nat) :
    ((commitTransaction saga tx now).1.status = tx.status ∨
     (commitTransaction saga tx now).1.status = TransactionStatus.Completed) ∧
    ((rollBackTransaction saga tx now).1.status = tx.status ∨
     (rollBackTransaction saga tx now).1.status = TransactionStatus.RolledBack) ∧
    (tx.status ≠ TransactionStatus.Pending →
      (commitTransaction saga tx now).1.status ≠ TransactionStatus.Pending ∧
      (rollBackTransaction saga tx now).1.status ≠ TransactionStatus.Pending) ∧
    (∀ cmds opts genId t0 tx0,
      (initTransaction saga cmds opts genId t0).1 = Except.ok tx0 →
      tx0.status = TransactionStatus.Pending) := by
  have hc : (commitTransaction saga tx now).1.status = tx.status ∨
      (commitTransaction saga tx now).1.status = TransactionStatus.Completed := by
    rcases hp : processTransaction saga tx .Commit with ⟨evs, r⟩
    cases r with
    | none => right; simp [commitTransaction, hp]
    | some e => left; simp [commitTransaction, hp]
  have hr : (rollBackTransaction saga tx now).1.status = tx.status ∨
      (rollBackTransaction saga tx now).1.status = TransactionStatus.RolledBack := by
    rcases hp : processTransaction saga tx .RollBack with ⟨evs, r⟩
    cases r with
    | none => right; simp [rollBackTransaction, hp]
    | some e => left; simp [rollBackTransaction, hp]
  refine ⟨hc, hr, ?_, ?_⟩
  · intro hne
    constructor
    · rcases hc with h | h <;> rw [h]
      · exact hne
      · exact fun hcp => TransactionStatus.noConfusion hcp
    · rcases hr with h | h <;> rw [h]
      · exact hne
      · exact fun hcp => TransactionStatus.noConfusion hcp
  · intro cmds opts genId t0 tx0 h0
    rcases cmds with _ | cs
    · exact absurd h0 (by simp [initTransaction])
    · by_cases hcs : cs = []
      · subst hcs
        exact absurd h0 (by simp [initTransaction])
      · rw [initTransaction_some_ne saga cs opts genId t0 hcs] at h0
        have h1 : (Except.ok (mkTransaction cs opts genId t0) :
            Except JsError Transaction) = Except.ok tx0 := h0
        injection h1 with h2
        rw [← h2]
        rfl

/-- C4 witness: the amended theorem instantiated at a concrete saga and
transaction. -/
theorem c4_witness :
    ((commitTransaction sagaOk txA 1).1.status = txA.status ∨
     (commitTransaction sagaOk txA 1).1.status = TransactionStatus.Completed) ∧
    txA.status = TransactionStatus.Pending :=
  ⟨(c4_status_transitions sagaOk txA 1).1,
   (c4_status_transitions sagaOk txA 1).2.2.2 (some [cmdA]) none "gid" 0 txA rfl⟩

/-- C5 counterexample: for a null command list `initTransaction` does fail
before any storage call (the trace is empty), but the error message is
"Commands can't be null or empty", not the claimed
"commands must not be null or empty". -/
theorem c5_counterexample :
    (initTransaction sagaOk none none "gid" 0).1 =
      Except.error (JsError.error "Commands can\x27t be null or empty") ∧
    (initTransaction sagaOk none none "gid" 0).2 = [] ∧
    JsError.error "Commands can\x27t be null or empty" ≠
      JsError.error "commands must not be null or empty" :=
  ⟨rfl, rfl, by decide⟩

/-- C5 (amended): for every null or empty command list and any options,
initialization fails with the validation error whose message is
"Commands can't be null or empty", and it fails before any side effect: the
storage port's create operation is never called — the event trace is empty. -/
theorem c5_null_or_empty_rejected (saga : Saga) (cmds : Option (List Command))
    (opts : Option TransactionOptions) (genId : String) (now : Nat)
    (h : cmds = none ∨ cmds = some []) :
    initTransaction saga cmds opts genId now =
      (Except.error (JsError.error "Commands can\x27t be null or empty"), []) := by
  rcases h with h | h <;> subst h <;> rfl

/-- C5 witness: the amended theorem at an empty command list with a storage
port configured — even then the trace is empty. -/
theorem c5_witness :
    initTransaction sagaRepo (some []) none "gid" 7 =
      (Except.error (JsError.error "Commands can\x27t be null or empty"), []) :=
  c5_null_or_empty_rejected sagaRepo (some []) none "gid" 7 (Or.inr rfl)

/-- Options carrying an empty-string (falsy) caller-supplied id. -/
def optsEmptyId : TransactionOptions := { id := some "" }

/-- Options carrying a truthy caller-supplied id. -/
def optsCustomId : TransactionOptions := { id := some "custom-id" }

/-- C6 counterexample: with a supplied identifier that is the empty string
(given, but falsy), `initTransaction` does not use it — the returned
transaction's id is the freshly generated identifier, not the supplied
one. -/
theorem c6_counterexample :
    (initTransaction sagaOk (some [cmdA]) (some optsEmptyId) "fresh-uuid" 0).1 =
      Except.ok (mkTransaction [cmdA] (some optsEmptyId) "fresh-uuid" 0) ∧
    (mkTransaction [cmdA] (some optsEmptyId) "fresh-uuid" 0).id = "fresh-uuid" ∧
    optsEmptyId.id = some "" ∧
    "fresh-uuid" ≠ "" :=
  ⟨rfl, rfl, rfl, by decide⟩

/-- C6 (amended): for every non-empty command list, initialization returns a
Transaction whose commands equal the input in the same order, whose status is
Pending, and whose id is the caller-supplied identifier when a TRUTHY
(non-empty) one is given in options; when the id option is absent or the
empty string, the id is the freshly generated identifier instead. -/
theorem c6_init_transaction_fields (saga : Saga) (cs : List Command)
    (opts : Option TransactionOptions) (genId : String) (t0 : Nat)
    (hne : cs ≠ []) :
    (initTransaction saga (some cs) opts genId t0).1 =
      Except.ok (mkTransaction cs opts genId t0) ∧
    (mkTransaction cs opts genId t0).commands = cs ∧
    (mkTransaction cs opts genId t0).status = TransactionStatus.Pending ∧
    (∀ o s, opts = some o → o.id = some s → s ≠ "" →
      (mkTransaction cs opts genId t0).id = s) ∧
    ((opts.bind (fun o => o.id) = none ∨ opts.bind (fun o => o.id) = some "") →
      (mkTransaction cs opts genId t0).id = genId) := by
  refine ⟨?_, rfl, rfl, ?_, ?_⟩
  · rw [initTransaction_some_ne saga cs opts genId t0 hne]
  · intro o s ho hs hsne
    subst ho
    exact chosenId_truthy o genId s hs hsne
  · intro h
    exact chosenId_falsy opts genId h

/-- C6 witness: the amended theorem at a truthy supplied identifier, which is
used verbatim. -/
theorem c6_witness :
    (initTransaction sagaOk (some [cmdA]) (some optsCustomId) "gid" 0).1 =
      Except.ok (mkTransaction [cmdA] (some optsCustomId) "gid" 0) ∧
    (mkTransaction [cmdA] (some optsCustomId) "gid" 0).commands = [cmdA] ∧
    (mkTransaction [cmdA] (some optsCustomId) "gid" 0).status =
      TransactionStatus.Pending ∧
    (mkTransaction [cmdA] (some optsCustomId) "gid" 0).id = "custom-id" :=
  have h := c6_init_transaction_fields sagaOk [cmdA] (some optsCustomId) "gid" 0
    (by decide)
  ⟨h.1, h.2.1, h.2.2.1,
   h.2.2.2.1 optsCustomId "custom-id" rfl rfl (by decide)⟩

/-- C7: for every command list in which every command is matched by some
registered capability and every apply step succeeds, `execute` returns the
transaction with status Completed, the apply events of the trace are exactly
one per command, in original list order, each dispatched at its first-match
position, and no compensate step ever runs. -/
theorem c7_execute_all_success (saga : Saga) (cs : List Command)
    (opts : Option TransactionOptions) (genId : String) (t0 t1 t2 : Nat)
    (hne : cs ≠ []) (hgen : genId ≠ "")
    (hall : ∀ c ∈ cs,
      stepOutcome saga (mkTransaction cs opts genId t0) .Commit c = some none) :
    (execute saga (some cs) opts genId t0 t1 t2).1 =
      Except.ok { mkTransaction cs opts genId t0 with
        status := TransactionStatus.Completed, updatedAt := t1 } ∧
    (execute saga (some cs) opts genId t0 t1 t2).2.filter isApplyEvent =
      cs.map (traceStep saga .Commit) ∧
    (execute saga (some cs) opts genId t0 t1 t2).2.filter isCompensateEvent = [] := by
  have h0 := initTransaction_some_ne saga cs opts genId t0 hne
  have hid : (mkTransaction cs opts genId t0).id ≠ "" :=
    chosenId_ne_empty opts genId hgen
  have hct := commitTransaction_all_ok saga (mkTransaction cs opts genId t0) t1 hid hall
  have hcm : (mkTransaction cs opts genId t0).commands = cs := rfl
  have hexec : execute saga (some cs) opts genId t0 t1 t2 =
      (Except.ok { mkTransaction cs opts genId t0 with
         status := TransactionStatus.Completed, updatedAt := t1 },
       (if saga.repository then [Event.repoCreate (mkTransaction cs opts genId t0)] else []) ++
        (cs.map (traceStep saga .Commit) ++
         (if saga.repository then
            [Event.repoUpdate (mkTransaction cs opts genId t0).id
              TransactionStatus.Completed t1]
          else []))) := by
    simp only [execute, h0, hct, hcm]
  have hfa : (cs.map (traceStep saga .Commit)).filter isApplyEvent =
      cs.map (traceStep saga .Commit) :=
    filter_traceStep_self saga .Commit cs isApplyEvent (fun c => rfl)
  have hfc : (cs.map (traceStep saga .Commit)).filter isCompensateEvent = [] :=
    filter_traceStep_nil saga .Commit cs isCompensateEvent (fun c => rfl)
  have he0a : ((if saga.repository then
      [Event.repoCreate (mkTransaction cs opts genId t0)] else []) :
      List Event).filter isApplyEvent = [] := by
    cases saga.repository <;> rfl
  have he0c : ((if saga.repository then
      [Event.repoCreate (mkTransaction cs opts genId t0)] else []) :
      List Event).filter isCompensateEvent = [] := by
    cases saga.repository <;> rfl
  have he1a : ((if saga.repository then
      [Event.repoUpdate (mkTransaction cs opts genId t0).id
        TransactionStatus.Completed t1] else []) :
      List Event).filter isApplyEvent = [] := by
    cases saga.repository <;> rfl
  have he1c : ((if saga.repository then
      [Event.repoUpdate (mkTransaction cs opts genId t0).id
        TransactionStatus.Completed t1] else []) :
      List Event).filter isCompensateEvent = [] := by
    cases saga.repository <;> rfl
  refine ⟨by rw [hexec], ?_, ?_⟩
  · rw [hexec]
    simp only [List.filter_append, he0a, hfa, he1a, List.nil_append, List.append_nil]
  · rw [hexec]
    simp only [List.filter_append, he0c, hfc, he1c, List.nil_append, List.append_nil]

/-- C7 witness: the happy path on two commands. -/
theorem c7_witness :
    (execute sagaOk (some [cmdA, cmdB]) none "gid" 0 1 2).1 =
      Except.ok { mkTransaction [cmdA, cmdB] none "gid" 0 with
        status := TransactionStatus.Completed, updatedAt := 1 } ∧
    (execute sagaOk (some [cmdA, cmdB]) none "gid" 0 1 2).2.filter isApplyEvent =
      [cmdA, cmdB].map (traceStep sagaOk .Commit) ∧
    (execute sagaOk (some [cmdA, cmdB]) none "gid" 0 1 2).2.filter
      isCompensateEvent = [] :=
  c7_execute_all_success sagaOk [cmdA, cmdB] none "gid" 0 1 2 (by decide)
    (by decide) (by decide)

/-- C8: dispatch at both commit and rollback is a first-match linear scan over
the registered capability list: if the capability at position i matches a
command and every earlier one does not, dispatch returns position i, and every
apply or compensate event any processing pass ever emits for that command
carries position i — a later matching capability is never invoked for it. -/
theorem c8_first_match_dispatch (saga : Saga) (c : Command) (i : Nat)
    (hi : i < saga.processors.length)
    (hmatch : (saga.processors.get ⟨i, hi⟩).canProcess c = true)
    (hfirst : ∀ j, ∀ hj : j < saga.processors.length, j < i →
      (saga.processors.get ⟨j, hj⟩).canProcess c = false) :
    findProcessor saga.processors c = some (i, saga.processors.get ⟨i, hi⟩) ∧
    (∀ tx action k,
      Event.applyStep k c ∈ (processTransaction saga tx action).1 ∨
      Event.compensateStep k c ∈ (processTransaction saga tx action).1 → k = i) := by
  have hfp := findProcessor_eq_first saga.processors c i hi hmatch hfirst
  refine ⟨hfp, ?_⟩
  intro tx action k hk
  have hev : ∃ ev, ev ∈ (processTransaction saga tx action).1 ∧
      (ev = Event.applyStep k c ∨ ev = Event.compensateStep k c) := by
    rcases hk with h | h
    · exact ⟨_, h, Or.inl rfl⟩
    · exact ⟨_, h, Or.inr rfl⟩
  obtain ⟨ev, hmem, hform⟩ := hev
  obtain ⟨i2, p2, c2, hfp2, hev2⟩ := processTransaction_events saga tx action ev hmem
  rcases hform with h | h <;> subst h
  · cases action with
    | Commit =>
      simp only [stepEvent, Event.applyStep.injEq] at hev2
      obtain ⟨hk2, hc2⟩ := hev2
      subst hk2
      rw [← hc2] at hfp2
      rw [hfp] at hfp2
      have h2 := Option.some_inj.mp hfp2
      exact (congrArg Prod.fst h2).symm
    | RollBack => exact absurd hev2 (by simp [stepEvent])
  · cases action with
    | Commit => exact absurd hev2 (by simp [stepEvent])
    | RollBack =>
      simp only [stepEvent, Event.compensateStep.injEq] at hev2
      obtain ⟨hk2, hc2⟩ := hev2
      subst hk2
      rw [← hc2] at hfp2
      rw [hfp] at hfp2
      have h2 := Option.some_inj.mp hfp2
      exact (congrArg Prod.fst h2).symm

/-- C8 witness: two capabilities that both match every command — the earlier
one wins and every step event for the command carries position 0. -/
theorem c8_witness :
    findProcessor sagaTwo.processors cmdA = some (0, procOk) ∧
    (∀ tx action k,
      Event.applyStep k cmdA ∈ (processTransaction sagaTwo tx action).1 ∨
      Event.compensateStep k cmdA ∈ (processTransaction sagaTwo tx action).1 →
      k = 0) :=
  c8_first_match_dispatch sagaTwo cmdA 0 (by decide) rfl
    (fun j hj hji => absurd hji (Nat.not_lt_zero j))

/-- C9: when a storage port is configured, a valid initialization calls the
port's create operation exactly once, with the new transaction; every
successful commit or rollback calls findByIdAndUpdate exactly once, carrying
the final status (Completed or RolledBack respectively) and the refreshed
updatedAt timestamp; and the core's control flow never calls any other
storage-port operation. -/
theorem c9_storage_port_calls (saga : Saga) (hrepo : saga.repository = true) :
    (∀ cs opts genId t0, cs ≠ ([] : List Command) →
      (initTransaction saga (some cs) opts genId t0).2 =
        [Event.repoCreate (mkTransaction cs opts genId t0)]) ∧
    (∀ tx now, (commitTransaction saga tx now).2.2 = none →
      (commitTransaction saga tx now).2.1.filter isRepoCall =
        [Event.repoUpdate tx.id TransactionStatus.Completed now] ∧
      (commitTransaction saga tx now).1.updatedAt = now ∧
      (commitTransaction saga tx now).1.status = TransactionStatus.Completed) ∧
    (∀ tx now, (rollBackTransaction saga tx now).2.2 = none →
      (rollBackTransaction saga tx now).2.1.filter isRepoCall =
        [Event.repoUpdate tx.id TransactionStatus.RolledBack now] ∧
      (rollBackTransaction saga tx now).1.updatedAt = now ∧
      (rollBackTransaction saga tx now).1.status = TransactionStatus.RolledBack) ∧
    (∀ cmds opts genId t0 t1 t2,
      (execute saga cmds opts genId t0 t1 t2).2.filter isOtherRepoOp = []) := by
  refine ⟨?_, ?_, ?_, ?_⟩
  · intro cs opts genId t0 hne
    rw [initTransaction_some_ne saga cs opts genId t0 hne]
    simp [hrepo]
  · intro tx now hnone
    rcases hp : processTransaction saga tx .Commit with ⟨evs, r⟩
    cases r with
    | some e =>
      rw [commitTransaction_fail saga tx now evs e hp] at hnone
      exact absurd hnone (by simp)
    | none =>
      have heq : commitTransaction saga tx now =
          ({ tx with status := TransactionStatus.Completed, updatedAt := now },
           evs ++ [Event.repoUpdate tx.id TransactionStatus.Completed now], none) := by
        simp [commitTransaction, hp, hrepo]
      have hevs : evs.filter isRepoCall = [] := by
        have h2 := processTransaction_filter_nil saga tx .Commit isRepoCall
          (fun a i c => by cases a <;> rfl)
        rw [hp] at h2; exact h2
      rw [heq]
      refine ⟨?_, rfl, rfl⟩
      simp only [List.filter_append, hevs, List.nil_append]
      rfl
  · intro tx now hnone
    rcases hp : processTransaction saga tx .RollBack with ⟨evs, r⟩
    cases r with
    | some e =>
      rw [rollBackTransaction_fail saga tx now evs e hp] at hnone
      exact absurd hnone (by simp)
    | none =>
      have heq : rollBackTransaction saga tx now =
          ({ tx with status := TransactionStatus.RolledBack, updatedAt := now },
           evs ++ [Event.repoUpdate tx.id TransactionStatus.RolledBack now], none) := by
        simp [rollBackTransaction, hp, hrepo]
      have hevs : evs.filter isRepoCall = [] := by
        have h2 := processTransaction_filter_nil saga tx .RollBack isRepoCall
          (fun a i c => by cases a <;> rfl)
        rw [hp] at h2; exact h2
      rw [heq]
      refine ⟨?_, rfl, rfl⟩
      simp only [List.filter_append, hevs, List.nil_append]
      rfl
  · intro cmds opts genId t0 t1 t2
    exact execute_filter_other saga cmds opts genId t0 t1 t2

/-- C9 witness: the storage interaction on a concrete saga with a port. -/
theorem c9_witness :
    (initTransaction sagaRepo (some [cmdA]) none "gid" 0).2 =
      [Event.repoCreate (mkTransaction [cmdA] none "gid" 0)] ∧
    (commitTransaction sagaRepo txA 1).2.1.filter isRepoCall =
      [Event.repoUpdate txA.id TransactionStatus.Completed 1] ∧
    (rollBackTransaction sagaRepo txA 2).2.1.filter isRepoCall =
      [Event.repoUpdate txA.id TransactionStatus.RolledBack 2] ∧
    (execute sagaRepo (some [cmdA]) none "gid" 0 1 2).2.filter isOtherRepoOp = [] :=
  ⟨(c9_storage_port_calls sagaRepo rfl).1 [cmdA] none "gid" 0 (by decide),
   ((c9_storage_port_calls sagaRepo rfl).2.1 txA 1 rfl).1,
   ((c9_storage_port_calls sagaRepo rfl).2.2.1 txA 2 rfl).1,
   (c9_storage_port_calls sagaRepo rfl).2.2.2 (some [cmdA]) none "gid" 0 1 2⟩

/-- C10: with a non-empty generated identifier (real UUIDs never are empty),
every transaction produced by initialization has a truthy (non-empty) id: a
falsy supplied id (absent or empty string) is replaced by the freshly
generated identifier. Consequently the "Only initialized transactions can be
processed" guard of processTransaction never fires for such transactions —
processing always proceeds straight to the command loop. -/
theorem c10_initialized_id_truthy (saga : Saga) (cs : List Command)
    (opts : Option TransactionOptions) (genId : String) (t0 : Nat)
    (tx : Transaction)
    (hgen : genId ≠ "")
    (hinit : (initTransaction saga (some cs) opts genId t0).1 = Except.ok tx) :
    tx.id ≠ "" ∧
    ((opts.bind (fun o => o.id) = none ∨ opts.bind (fun o => o.id) = some "") →
      tx.id = genId) ∧
    (∀ action, processTransaction saga tx action =
      processCommands saga tx action (effectiveCommands tx action)) := by
  have htx : tx = mkTransaction cs opts genId t0 := by
    by_cases hcs : cs = []
    · subst hcs
      exact absurd hinit (by simp [initTransaction])
    · rw [initTransaction_some_ne saga cs opts genId t0 hcs] at hinit
      have h1 : (Except.ok (mkTransaction cs opts genId t0) :
          Except JsError Transaction) = Except.ok tx := hinit
      injection h1 with h2
      exact h2.symm
  subst htx
  refine ⟨chosenId_ne_empty opts genId hgen, ?_, ?_⟩
  · intro h
    exact chosenId_falsy opts genId h
  · intro action
    exact processTransaction_of_id saga _ action (chosenId_ne_empty opts genId hgen)

/-- C10 witness: the concrete one-command transaction has a non-empty id equal
to the generated one, and its processing passes the guard. -/
theorem c10_witness :
    txA.id ≠ "" ∧
    txA.id = "gid" ∧
    processTransaction sagaOk txA .RollBack =
      processCommands sagaOk txA .RollBack (effectiveCommands txA .RollBack) :=
  have h := c10_initialized_id_truthy sagaOk [cmdA] none "gid" 0 txA (by decide) rfl
  ⟨h.1, h.2.1 (Or.inl rfl), h.2.2 .RollBack⟩

end Sagalicious
